import Mathlib

/-!
Verification of the interruptible pipeline / polling / cancellation core of
`stress.ts` (a Gatling load-test runner for EKS).

The TypeScript source is shallowly embedded:
* JS strings are modelled as `List Char`;
* an `AbortSignal` is modelled as `Sig`, the (optional) instant at which the
  signal is aborted — `Sig.aborted s t` is what `signal.aborted` reads at
  instant `t`;
* asynchronous real time is modelled by threading an explicit clock
  (a `Nat` number of milliseconds) through each operation; an async probe is
  a function from its invocation index to its boolean result and duration;
* the unbounded `while` loop of `pollUntil` is modelled with explicit fuel,
  returning `none` when the fuel runs out (the loop did not settle within
  that many iterations);
* timer/listener bookkeeping performed by `interruptibleSleep`
  (`setTimeout` / `clearTimeout` / `addEventListener` / `removeEventListener`)
  is recorded as an explicit event trace so that resource-leak claims can be
  stated.
-/

namespace Stress

/-- An `AbortSignal`, modelled by the instant (ms) at which it is aborted;
`none` means it is never aborted during the run. -/
structure Sig where
  abortTime : Option Nat
deriving DecidableEq

/-- What `signal.aborted` reads at instant `t`. -/
def Sig.aborted (s : Sig) (t : Nat) : Bool :=
  match s.abortTime with
  | none => false
  | some a => decide (a ≤ t)

/-- Timer/listener bookkeeping events performed by `interruptibleSleep`
(`src/stress.ts` lines 502-518). `removeListener` covers both the explicit
`removeEventListener` on the timer path and the automatic deregistration of
the `{ once: true }` abort listener when it fires. -/
inductive SleepEv where
  | armTimer
  | addListener
  | removeListener
  | clearTimer
  | timerFired
deriving DecidableEq

/-- Result of `interruptibleSleep`: `"timeout"` or `"aborted"` in the source. -/
inductive SleepRes where
  | timeout
  | aborted
deriving DecidableEq

/-- Output of one `interruptibleSleep` call: its result, the instant at which
the returned promise resolves, and the trace of timer/listener events it
performed. -/
structure SleepOut where
  res : SleepRes
  endTime : Nat
  events : List SleepEv
deriving DecidableEq

/-- Model of `interruptibleSleep(ms, signal)` from `src/stress.ts` lines 502-518,
started at instant `t`:
* if the signal is already aborted it resolves `"aborted"` immediately,
  scheduling nothing;
* otherwise it arms a timer for `t + ms` and registers a `once` abort
  listener; if the abort fires first (`a < t + ms`) the listener is
  deregistered (once-semantics), the timer is cleared and the call resolves
  `"aborted"` at instant `a`; if the timer fires first the listener is
  removed and the call resolves `"timeout"` at instant `t + ms`. -/
def interruptibleSleep (ms : Nat) (sig : Sig) (t : Nat) : SleepOut :=
  if sig.aborted t then ⟨.aborted, t, []⟩
  else
    match sig.abortTime with
    | some a =>
      if a < t + ms then
        ⟨.aborted, a, [.armTimer, .addListener, .removeListener, .clearTimer]⟩
      else
        ⟨.timeout, t + ms, [.armTimer, .addListener, .timerFired, .removeListener]⟩
    | none =>
      ⟨.timeout, t + ms, [.armTimer, .addListener, .timerFired, .removeListener]⟩

/-- Result of a settled `pollUntil` run: the returned boolean, the instants at
which the probe was invoked (most recent first), and the instant at which the
loop returned. -/
structure PollRes where
  result : Bool
  times : List Nat
  endTime : Nat
deriving DecidableEq

/-- The `maxMs` check of `pollUntil`: `Date.now() - start >= maxMs`
(`src/stress.ts` line 533) when `maxMs` was provided. -/
def deadlineHit (maxMs : Option Nat) (start t : Nat) : Bool :=
  match maxMs with
  | none => false
  | some M => decide (M ≤ t - start)

/-- The `while` loop of `pollUntil` (`src/stress.ts` lines 531-538), with
explicit fuel. `t` is the current instant, `k` the number of probe
invocations so far, `acc` the invocation instants so far (most recent first).
Loop body order follows the source: signal check, deadline check, probe,
interruptible sleep. -/
def pollGo (probe : Nat → Bool × Nat) (intervalMs : Nat) (sig : Sig)
    (start : Nat) (maxMs : Option Nat) :
    Nat → Nat → Nat → List Nat → Option PollRes
  | 0, _, _, _ => none
  | fuel + 1, t, k, acc =>
    if sig.aborted t then some ⟨false, acc, t⟩
    else if deadlineHit maxMs start t then some ⟨false, acc, t⟩
    else if (probe k).1 then some ⟨true, t :: acc, t + (probe k).2⟩
    else if (interruptibleSleep intervalMs sig (t + (probe k).2)).res =
        SleepRes.aborted then
      some ⟨false, t :: acc,
        (interruptibleSleep intervalMs sig (t + (probe k).2)).endTime⟩
    else
      pollGo probe intervalMs sig start maxMs fuel
        (interruptibleSleep intervalMs sig (t + (probe k).2)).endTime
        (k + 1) (t :: acc)

/-- Model of `pollUntil(fn, intervalMs, signal, maxMs?)` from `src/stress.ts` lines
525-539, entered at instant `start` with the given fuel. -/
def pollUntil (probe : Nat → Bool × Nat) (intervalMs : Nat) (sig : Sig)
    (maxMs : Option Nat) (fuel start : Nat) : Option PollRes :=
  pollGo probe intervalMs sig start maxMs fuel start 0 []

/-- Constant `POLL_INTERVAL` from `src/stress.ts` line 23. -/
def POLL_INTERVAL : Nat := 5000

/-! ## Readiness classification and status-line parsing -/

/-- Constant `NOT_READY_STATUSES` from `src/stress.ts` lines 466-470. -/
def NOT_READY_STATUSES : List (List Char) :=
  ["Pending".toList, "ContainerCreating".toList, "PodInitializing".toList]

/-- The `"Init:"` marker tested by `status.startsWith("Init:")` in
`src/stress.ts` line 493. -/
def INIT_MARK : List Char := "Init:".toList

/-- Model of `isPodReady(status)` from `src/stress.ts` lines 491-495. -/
def isPodReady (status : List Char) : Bool :=
  if status ∈ NOT_READY_STATUSES then false
  else if INIT_MARK.isPrefixOf status then false
  else true

/-- Whitespace characters of the JS regex class `\s` (ASCII range), used to
model `line.trim().split(/\s+/)`. -/
def isWsChar (c : Char) : Bool :=
  c = ' ' || c = '\t' || c = '\n' || c = '\r' ||
  c = Char.ofNat 11 || c = Char.ofNat 12

/-- Model of `line.trim()`: drop leading and trailing whitespace. -/
def trimChars (s : List Char) : List Char :=
  ((s.dropWhile isWsChar).reverse.dropWhile isWsChar).reverse

/-- Single-pass tokenizer accumulating the current (reversed) token. -/
def wsTokensAux : List Char → List Char → List (List Char)
  | [], cur => if cur = [] then [] else [cur.reverse]
  | c :: cs, cur =>
    if isWsChar c then
      if cur = [] then wsTokensAux cs []
      else cur.reverse :: wsTokensAux cs []
    else wsTokensAux cs (c :: cur)

/-- The whitespace-delimited tokens of a character list: `split(/\s+/)` on a
trimmed string. (On the empty string JS `"".split(/\s+/)` yields `[""]`,
one empty column, where this yields zero columns; both fall in the
fewer-than-three-columns case of `parsePodStatus`.) -/
def wsTokens (s : List Char) : List (List Char) := wsTokensAux s []

/-- Model of `parsePodStatus(line)` from `src/stress.ts` lines 477-483: trim, split on
runs of whitespace, require at least three columns, and return
`{ name: parts[0], status: parts[2] }`. -/
def parsePodStatus (line : List Char) : Option (List Char × List Char) :=
  match wsTokens (trimChars line) with
  | t0 :: _ :: t2 :: _ => some (t0, t2)
  | _ => none

/-! ## Credential redaction and AWS env parsing -/

/-- Constants `REQUIRED_AWS_VARS` / `SENSITIVE_AWS_VARS` from `src/stress.ts` lines
240-247. -/
def SENSITIVE_AWS_VARS : List (List Char) :=
  ["AWS_ACCESS_KEY_ID".toList, "AWS_SECRET_ACCESS_KEY".toList,
   "AWS_SESSION_TOKEN".toList]

/-- Model of `redact(key, value)` from `src/stress.ts` lines 584-588. -/
def redact (key value : List Char) : List Char :=
  if key ∉ SENSITIVE_AWS_VARS then value
  else if value.length ≤ 4 then "****".toList
  else value.take 4 ++ "****".toList

/-- Model of `line.indexOf("=")` followed by `slice(0, idx)` / `slice(idx + 1)`
(`src/stress.ts` lines 402-405): split a line at its first `'='`, returning
`none` when the line contains no `'='`. -/
def splitAtEq : List Char → Option (List Char × List Char)
  | [] => none
  | c :: cs =>
    if c = '=' then some ([], cs)
    else
      match splitAtEq cs with
      | none => none
      | some (k, v) => some (c :: k, v)

/-- The `"AWS_"` marker tested by `key.startsWith("AWS_")` in
`src/stress.ts` line 406. -/
def AWS_MARK : List Char := "AWS_".toList

/-- The body of `parseAwsEnv`'s per-line loop (`src/stress.ts` lines
402-408): skip the line when it has no `'='`, otherwise split at the first
`'='` and keep the pair only when the key starts with `"AWS_"`. -/
def parseAwsLine (line : List Char) : Option (List Char × List Char) :=
  match splitAtEq line with
  | none => none
  | some (k, v) => if AWS_MARK.isPrefixOf k then some (k, v) else none

/-- The JS record assignment `env[key] = value`: replace the value of an
existing key in place, or append a new entry. -/
def upsert (env : List (List Char × List Char)) (k v : List Char) :
    List (List Char × List Char) :=
  match env with
  | [] => [(k, v)]
  | (k', v') :: rest =>
    if k' = k then (k, v) :: rest else (k', v') :: upsert rest k v

/-- Model of `raw.split("\n")` — split at every newline, keeping empty segments. -/
def splitOnNl : List Char → List (List Char)
  | [] => [[]]
  | c :: cs =>
    match splitOnNl cs with
    | [] => [[c]]
    | t :: ts => if c = '\n' then [] :: t :: ts else (c :: t) :: ts

/-- Model of `parseAwsEnv(raw)` from `src/stress.ts` lines 399-411, with the JS record
modelled as an in-place-update association list. -/
def parseAwsEnv (raw : List Char) : List (List Char × List Char) :=
  (splitOnNl raw).foldl
    (fun env line =>
      match parseAwsLine line with
      | none => env
      | some (k, v) => upsert env k v)
    []

/-- Record lookup on the association-list model of a JS record. -/
def lookupEnv (env : List (List Char × List Char)) (k : List Char) :
    Option (List Char) :=
  match env with
  | [] => none
  | (k', v') :: rest => if k' = k then some v' else lookupEnv rest k

/-! ## The wait-for-pods stage -/

/-- The poll callback of `waitForPods` (`src/stress.ts` lines 807-848)
applied to one `kubectl get pods --no-headers` output: empty (trimmed)
output means "no pods yet" (`false`); otherwise parse each line and succeed
when at least one pod parsed and some pod's status is log-streamable. -/
def waitProbe (output : List Char) : Bool :=
  let trimmed := trimChars output
  if trimmed = [] then false
  else
    let pods := (splitOnNl trimmed).filterMap parsePodStatus
    decide (0 < pods.length) && pods.any (fun p => isPodReady p.2)

/-- Model of `Math.round(timeoutMs / 60_000)` from `src/stress.ts` line 855:
round-half-up in exact arithmetic. -/
def roundMinutes (timeoutMs : Nat) : Nat := (timeoutMs + 30000) / 60000

/-- The timeout error message of `waitForPods` (`src/stress.ts` lines
856-859). -/
def timeoutMsg (label : List Char) (timeoutMs : Nat) : List Char :=
  "Timed out after ".toList ++ (Nat.repr (roundMinutes timeoutMs)).toList ++
    "m waiting for pods matching '".toList ++ label ++
    "'. Check cluster capacity, image pull status, and node selectors.".toList

/-- Model of `waitForPods(awsEnv, cfg, label, timeoutMs)` from `src/stress.ts` lines
797-861: run the poll loop over the successive `kubectl` outputs, then throw
the descriptive timeout error exactly when the loop yielded `false` with the
cancellation signal unobserved (`!ready && !abort.signal.aborted`).
`outputs k` is the `kubectl` output seen by the `k`-th probe invocation and
`probeDur k` its duration. -/
def waitForPods (outputs : Nat → List Char) (probeDur : Nat → Nat) (sig : Sig)
    (label : List Char) (timeoutMs : Nat) (fuel start : Nat) :
    Option (Except (List Char) Unit) :=
  match pollUntil (fun k => (waitProbe (outputs k), probeDur k)) POLL_INTERVAL
      sig (some timeoutMs) fuel start with
  | none => none
  | some r =>
    if !r.result && !sig.aborted r.endTime then
      some (.error (timeoutMsg label timeoutMs))
    else some (.ok ())

/-! ## Step sequencing and the best-effort uninstall step -/

/-- Terminal classification of a step sequence: the source's sequential
`await`s either all complete or stop at the first thrown error. -/
inductive PipeRes where
  | completed
  | failed (msg : List Char)
deriving DecidableEq

/-- Sequential execution of named steps (`runPipeline`, `src/stress.ts`
lines 943-965): each step either returns or throws; a throw stops the
sequence. Returns the terminal classification and the names of the steps
that actually ran. -/
def runSteps :
    List (List Char × Except (List Char) Unit) → PipeRes × List (List Char)
  | [] => (.completed, [])
  | (name, out) :: rest =>
    match out with
    | .error m => (.failed m, [name])
    | .ok _ => ((runSteps rest).1, name :: (runSteps rest).2)

/-- Outcome of one `helmUninstall` call: the exception it raised (if any)
and the line it logged. -/
structure UninstallOut where
  raised : Option (List Char)
  log : List Char
deriving DecidableEq

/-- Model of `helmUninstall(awsEnv, cfg, dryRun)` from `src/stress.ts` lines 667-690,
as a function of the `helm uninstall` exit code: the subprocess runs with
`.noThrow()`, a zero exit logs success, and any non-zero exit logs the
"No existing release" line and returns normally — no branch raises. -/
def helmUninstall (exitCode : Nat) (release : List Char) (dryRun : Bool) :
    UninstallOut :=
  if exitCode = 0 then
    ⟨none, "release \"".toList ++ release ++ "\" uninstalled".toList ++
      (if dryRun then " (dry-run)".toList else [])⟩
  else
    ⟨none, "  No existing release \"".toList ++ release ++
      "\" found. Skipping.".toList⟩

/-- The pipeline-step view of a `helmUninstall` outcome: it throws exactly
when the call raised. -/
def stepOfUninstall (u : UninstallOut) : Except (List Char) Unit :=
  match u.raised with
  | none => .ok ()
  | some m => .error m

/-- The step list of `runPipeline` for `--mode=run` (`src/stress.ts` lines
943-965): auth, kubeconfig update, prior-release uninstall (best-effort),
chart install, lifecycle monitoring. The outcomes of the four steps that can
throw are parameters; the uninstall step's outcome is computed from the
`helm uninstall` exit code via `helmUninstall`. -/
def runModeSteps (authRes kubeRes : Except (List Char) Unit)
    (uninstallCode : Nat) (release : List Char) (dryRun : Bool)
    (installRes monitorRes : Except (List Char) Unit) :
    List (List Char × Except (List Char) Unit) :=
  [("auth".toList, authRes),
   ("kubeconfig".toList, kubeRes),
   ("uninstall".toList,
     stepOfUninstall (helmUninstall uninstallCode release dryRun)),
   ("install".toList, installRes),
   ("monitor".toList, monitorRes)]

/-! ## Lifecycle monitoring and teardown -/

/-- The two `AbortController`s of the run pipeline: the module-level `abort`
and the local `watchAbort` of `monitorGatling`. -/
inductive SigRef where
  | main
  | watch
deriving DecidableEq

/-- Events of the monitoring phase (`monitorGatling`, `src/stress.ts` lines
885-940). `uninstallCmd b` is a compensating `helm uninstall`, with `b` the
`AbortSignal` the command is bound to (via dax `.signal(...)`), if any.
`stage n` is an abstract body sub-stage action (wait-for-pods, log
streaming). -/
inductive MonEv where
  | startWatch
  | abortWatch
  | joinWatch
  | uninstallCmd (boundTo : Option SigRef)
  | stage (name : List Char)
deriving DecidableEq

/-- Outcome of `monitorGatling`: the full event trace and the value the call
settles with (a thrown error propagates after the `finally` block ran). -/
structure MonOut where
  trace : List MonEv
  result : Except (List Char) Unit

/-- Model of `monitorGatling(awsEnv, cfg)` from `src/stress.ts` lines 885-940, with
the `try` body abstracted to its event trace and settle value (covering
normal completion, a thrown step failure, and the early `return`s taken on
interrupt). The source shape:
the background pod watch starts first (bound to the local `watchAbort`
controller); the `finally` block always aborts that controller and then
`await`s the watch promise (the join); afterwards, only when the
module-level `interrupted` flag is set, it runs `helmUninstall(awsEnv, cfg,
false)` — a command built with no `.signal(...)` binding (contrast
`streamLogs`, which binds `abort.signal`), hence `uninstallCmd none`. A
`try`/`finally` re-settles with the body's value once the `finally` block
completes (the `finally` block itself cannot throw: `helmUninstall` never
raises). -/
def monitorGatling (bodyTrace : List MonEv) (bodyRes : Except (List Char) Unit)
    (interrupted : Bool) : MonOut :=
  { trace := .startWatch :: bodyTrace ++ [.abortWatch, .joinWatch] ++
      (if interrupted then [MonEv.uninstallCmd none] else []),
    result := bodyRes }

/-- Whether an event belongs to the teardown phase (aborting/joining the
background watch, or a compensating uninstall). The body of the monitored
phase performs no such event. -/
def MonEv.isTeardown : MonEv → Bool
  | .abortWatch => true
  | .joinWatch => true
  | .uninstallCmd _ => true
  | _ => false

/-! ## Spec-side comparison definitions -/

/-- Modelled from the spec's words (the claim's pattern `Init:<n>/<m>`):
`"Init:"` followed by a nonempty digit string, a `'/'`, and a nonempty digit
string. Stated only to compare the claim's wording against the source's
`status.startsWith("Init:")` test. -/
def matchesInitNM (s : List Char) : Prop :=
  ∃ n m : List Char, n ≠ [] ∧ m ≠ [] ∧ (∀ c ∈ n, c.isDigit = true) ∧
    (∀ c ∈ m, c.isDigit = true) ∧ s = INIT_MARK ++ n ++ '/' :: m

/-- The value of the latest entry for key `k` in an ordered entry list
(later entries override earlier ones). Spec-side helper used to state what
the record built by `parseAwsEnv` contains. -/
def lastVal (entries : List (List Char × List Char)) (k : List Char) :
    Option (List Char) :=
  match entries with
  | [] => none
  | (k', v') :: rest =>
    match lastVal rest k with
    | some v => some v
    | none => if k' = k then some v' else none

/-! ## Theorems -/

/-- Claim C9 — `redact` returns the value unchanged when the key is not one of
`AWS_ACCESS_KEY_ID`, `AWS_SECRET_ACCESS_KEY`, `AWS_SESSION_TOKEN`; for those
three keys it returns `"****"` when the value has length ≤ 4 and the first
four characters followed by `"****"` otherwise, so a redacted credential
value never exposes more than its first four characters. -/
theorem claim_C9 (key value : List Char) :
    ((key ≠ "AWS_ACCESS_KEY_ID".toList ∧ key ≠ "AWS_SECRET_ACCESS_KEY".toList ∧
        key ≠ "AWS_SESSION_TOKEN".toList) → redact key value = value) ∧
    ((key = "AWS_ACCESS_KEY_ID".toList ∨ key = "AWS_SECRET_ACCESS_KEY".toList ∨
        key = "AWS_SESSION_TOKEN".toList) →
      ((value.length ≤ 4 → redact key value = "****".toList) ∧
       (4 < value.length → redact key value = value.take 4 ++ "****".toList) ∧
       (redact key value = "****".toList ∨
        redact key value = value.take 4 ++ "****".toList))) := by
  have hmem : key ∈ SENSITIVE_AWS_VARS ↔
      (key = "AWS_ACCESS_KEY_ID".toList ∨ key = "AWS_SECRET_ACCESS_KEY".toList ∨
        key = "AWS_SESSION_TOKEN".toList) := by
    simp [SENSITIVE_AWS_VARS]
  constructor
  · intro h
    have hn : key ∉ SENSITIVE_AWS_VARS := by
      rw [hmem]
      rintro (hc | hc | hc)
      · exact h.1 hc
      · exact h.2.1 hc
      · exact h.2.2 hc
    unfold redact
    rw [if_pos hn]
  · intro h
    have hs : key ∈ SENSITIVE_AWS_VARS := hmem.mpr h
    unfold redact
    rw [if_neg (not_not_intro hs)]
    refine ⟨?_, ?_, ?_⟩
    · intro hle
      rw [if_pos hle]
    · intro hgt
      rw [if_neg (by omega)]
    · by_cases hle : value.length ≤ 4
      · left
        rw [if_pos hle]
      · right
        rw [if_neg hle]

/-- Witness for C9 at a sensitive key with an eight-character value. -/
theorem claim_C9_witness :
    redact "AWS_SESSION_TOKEN".toList "abcdefgh".toList =
      "abcdefgh".toList.take 4 ++ "****".toList :=
  ((claim_C9 "AWS_SESSION_TOKEN".toList "abcdefgh".toList).2
    (Or.inr (Or.inr rfl))).2.1 (by decide)

/-- Claim C8 — `parsePodStatus` splits on runs of whitespace and returns `none`
for blank or whitespace-only input and for lines with fewer than three
columns; for every line with at least three columns it returns the pair of
column 0 (name) and column 2 (status), regardless of trailing columns or
inter-column spacing width (it depends only on the token list). -/
theorem claim_C8 (line : List Char) :
    ((wsTokens (trimChars line)).length < 3 → parsePodStatus line = none) ∧
    (∀ t0 t1 t2 rest, wsTokens (trimChars line) = t0 :: t1 :: t2 :: rest →
      parsePodStatus line = some (t0, t2)) ∧
    ((∀ c ∈ line, isWsChar c = true) → parsePodStatus line = none) ∧
    (∀ l2, wsTokens (trimChars l2) = wsTokens (trimChars line) →
      parsePodStatus l2 = parsePodStatus line) := by
  refine ⟨?_, ?_, ?_, ?_⟩
  · intro h
    unfold parsePodStatus
    rcases hw : wsTokens (trimChars line) with _ | ⟨a, _ | ⟨b, _ | ⟨c, r⟩⟩⟩
    · rfl
    · rfl
    · rfl
    · rw [hw] at h
      simp only [List.length_cons] at h
      omega
  · intro t0 t1 t2 rest hw
    unfold parsePodStatus
    rw [hw]
  · intro hws
    have ht : trimChars line = [] := by
      unfold trimChars
      rw [List.dropWhile_eq_nil_iff.mpr hws]
      rfl
    unfold parsePodStatus
    rw [ht]
    rfl
  · intro l2 h
    unfold parsePodStatus
    rw [h]

/-- Witness for C8 on a five-column `kubectl` line with uneven spacing. -/
theorem claim_C8_witness :
    parsePodStatus "name   1/1     Running   0   5s".toList =
      some ("name".toList, "Running".toList) :=
  (claim_C8 _).2.1 "name".toList "1/1".toList "Running".toList
    ["0".toList, "5s".toList] (by decide)

/-- Claim C5 counterexample — the claim classifies as NotReady exactly the
fixed labels and labels matching `Init:<n>/<m>`, but the code tests
`startsWith("Init:")`: on the label `"Init:Error"` (no `<n>/<m>` part, no
`'/'` at all) `isPodReady` returns NotReady (`false`) although the label is
neither in `NOT_READY_STATUSES` nor an `Init:<n>/<m>` match, so the claim's
"Ready for every other label" fails there. -/
theorem claim_C5_cex :
    isPodReady "Init:Error".toList = false ∧
    "Init:Error".toList ∉ NOT_READY_STATUSES ∧
    ¬ matchesInitNM "Init:Error".toList := by
  refine ⟨by decide, by decide, ?_⟩
  rintro ⟨n, m, hn, hm, _, _, heq⟩
  have h : ('/' : Char) ∈ "Init:Error".toList := by
    rw [heq]
    simp [INIT_MARK]
  exact absurd h (by decide)

/-- Claim C5 (amended) — `isPodReady` returns NotReady exactly when the label
is one of `NOT_READY_STATUSES` or starts with `"Init:"` (rather than only
for full `Init:<n>/<m>` matches), and Ready for every other label, including
"Running", "Completed", "CrashLoopBackOff" and "Error". -/
theorem claim_C5 (s : List Char) :
    (isPodReady s = false ↔
      (s ∈ NOT_READY_STATUSES ∨ INIT_MARK.isPrefixOf s = true)) ∧
    isPodReady "Running".toList = true ∧
    isPodReady "Completed".toList = true ∧
    isPodReady "CrashLoopBackOff".toList = true ∧
    isPodReady "Error".toList = true ∧
    isPodReady "Pending".toList = false ∧
    isPodReady "ContainerCreating".toList = false ∧
    isPodReady "PodInitializing".toList = false ∧
    isPodReady "Init:0/1".toList = false := by
  refine ⟨?_, by decide, by decide, by decide, by decide, by decide,
    by decide, by decide, by decide⟩
  unfold isPodReady
  by_cases h1 : s ∈ NOT_READY_STATUSES
  · simp [h1]
  · by_cases h2 : INIT_MARK.isPrefixOf s = true
    · simp [h1, h2]
    · simp [h1, h2]

/-- Witness for the amended C5 at the label `"Init:0/1"`. -/
theorem claim_C5_witness :
    isPodReady "Init:0/1".toList = false :=
  (claim_C5 "Init:0/1".toList).1.mpr (Or.inr (by decide))

/-- Claim C6 — `interruptibleSleep` returns `"aborted"` immediately, scheduling
nothing, when the signal is already set at the call; and on every exit path
every armed timer has been cleared or has fired, and every registered abort
listener has been deregistered. -/
theorem claim_C6 (ms : Nat) (sig : Sig) (t : Nat) :
    (sig.aborted t = true →
      interruptibleSleep ms sig t = ⟨.aborted, t, []⟩) ∧
    ((interruptibleSleep ms sig t).events.count .armTimer =
      (interruptibleSleep ms sig t).events.count .clearTimer +
        (interruptibleSleep ms sig t).events.count .timerFired) ∧
    ((interruptibleSleep ms sig t).events.count .addListener =
      (interruptibleSleep ms sig t).events.count .removeListener) := by
  have hcases : (interruptibleSleep ms sig t).events = [] ∨
      (interruptibleSleep ms sig t).events =
        [.armTimer, .addListener, .removeListener, .clearTimer] ∨
      (interruptibleSleep ms sig t).events =
        [.armTimer, .addListener, .timerFired, .removeListener] := by
    unfold interruptibleSleep
    by_cases h : sig.aborted t = true
    · rw [if_pos h]
      left
      rfl
    · rw [if_neg h]
      cases sig.abortTime with
      | none => right; right; rfl
      | some a =>
        dsimp only
        by_cases h2 : a < t + ms
        · rw [if_pos h2]
          right; left; rfl
        · rw [if_neg h2]
          right; right; rfl
  refine ⟨?_, ?_, ?_⟩
  · intro h
    unfold interruptibleSleep
    rw [if_pos h]
  · rcases hcases with h | h | h <;> rw [h] <;> decide
  · rcases hcases with h | h | h <;> rw [h] <;> decide

/-- Witness for C6 at an already-set signal. -/
theorem claim_C6_witness :
    interruptibleSleep 5 ⟨some 0⟩ 0 = ⟨.aborted, 0, []⟩ :=
  (claim_C6 5 ⟨some 0⟩ 0).1 (by decide)

/-- Case analysis of `interruptibleSleep`: either the signal was already set
(immediate abort), or it resolves `"aborted"` at an instant where the signal
reads aborted, or it resolves `"timeout"` exactly `ms` after its start. -/
theorem interruptibleSleep_spec (ms : Nat) (sig : Sig) (x : Nat) :
    (sig.aborted x = true ∧ interruptibleSleep ms sig x = ⟨.aborted, x, []⟩) ∨
    ((interruptibleSleep ms sig x).res = .aborted ∧
      sig.aborted (interruptibleSleep ms sig x).endTime = true) ∨
    ((interruptibleSleep ms sig x).res = .timeout ∧
      (interruptibleSleep ms sig x).endTime = x + ms) := by
  by_cases h1 : sig.aborted x = true
  · left
    refine ⟨h1, ?_⟩
    unfold interruptibleSleep
    rw [if_pos h1]
  · unfold interruptibleSleep
    rw [if_neg h1]
    cases ha : sig.abortTime with
    | none => exact Or.inr (Or.inr ⟨rfl, rfl⟩)
    | some a =>
      dsimp only
      by_cases h2 : a < x + ms
      · rw [if_pos h2]
        refine Or.inr (Or.inl ⟨rfl, ?_⟩)
        show sig.aborted a = true
        unfold Sig.aborted
        rw [ha]
        simp
      · rw [if_neg h2]
        exact Or.inr (Or.inr ⟨rfl, rfl⟩)

/-- A sleep that resolves `"aborted"` resolves at an instant where the
signal reads aborted. -/
theorem interruptibleSleep_aborted_end (ms : Nat) (sig : Sig) (x : Nat)
    (h : (interruptibleSleep ms sig x).res = .aborted) :
    sig.aborted (interruptibleSleep ms sig x).endTime = true := by
  rcases interruptibleSleep_spec ms sig x with ⟨h1, he⟩ | ⟨_, he⟩ | ⟨hr, _⟩
  · rw [he]
    exact h1
  · exact he
  · rw [hr] at h
    exact absurd h (by decide)

/-- A sleep that does not resolve `"aborted"` resolves `"timeout"` exactly
`ms` after its start. -/
theorem interruptibleSleep_timeout_end (ms : Nat) (sig : Sig) (x : Nat)
    (h : ¬ (interruptibleSleep ms sig x).res = .aborted) :
    (interruptibleSleep ms sig x).endTime = x + ms := by
  rcases interruptibleSleep_spec ms sig x with ⟨_, he⟩ | ⟨hr, _⟩ | ⟨_, he⟩
  · rw [he] at h
    exact absurd rfl h
  · exact absurd hr h
  · exact he

/-- Every probe-invocation instant recorded by `pollGo` beyond the incoming
accumulator passed both the signal check and the deadline check. -/
theorem pollGo_times_ok (probe : Nat → Bool × Nat) (intervalMs : Nat)
    (sig : Sig) (start : Nat) (maxMs : Option Nat) :
    ∀ fuel t k acc r,
      pollGo probe intervalMs sig start maxMs fuel t k acc = some r →
      ∀ τ ∈ r.times, τ ∈ acc ∨
        (sig.aborted τ = false ∧ deadlineHit maxMs start τ = false) := by
  intro fuel
  induction fuel with
  | zero =>
    intro t k acc r h
    simp [pollGo] at h
  | succ n ih =>
    intro t k acc r h
    unfold pollGo at h
    by_cases h1 : sig.aborted t = true
    · rw [if_pos h1] at h
      injection h with h
      subst h
      intro τ hτ
      exact Or.inl hτ
    rw [if_neg h1] at h
    by_cases h2 : deadlineHit maxMs start t = true
    · rw [if_pos h2] at h
      injection h with h
      subst h
      intro τ hτ
      exact Or.inl hτ
    rw [if_neg h2] at h
    by_cases h3 : (probe k).1 = true
    · rw [if_pos h3] at h
      injection h with h
      subst h
      intro τ hτ
      rcases List.mem_cons.mp hτ with rfl | hτ
      · exact Or.inr ⟨Bool.eq_false_iff.mpr h1, Bool.eq_false_iff.mpr h2⟩
      · exact Or.inl hτ
    rw [if_neg h3] at h
    by_cases h4 : (interruptibleSleep intervalMs sig (t + (probe k).2)).res =
        SleepRes.aborted
    · rw [if_pos h4] at h
      injection h with h
      subst h
      intro τ hτ
      rcases List.mem_cons.mp hτ with rfl | hτ
      · exact Or.inr ⟨Bool.eq_false_iff.mpr h1, Bool.eq_false_iff.mpr h2⟩
      · exact Or.inl hτ
    rw [if_neg h4] at h
    intro τ hτ
    rcases ih _ _ _ _ h τ hτ with hmem | hok
    · rcases List.mem_cons.mp hmem with rfl | hmem
      · exact Or.inr ⟨Bool.eq_false_iff.mpr h1, Bool.eq_false_iff.mpr h2⟩
      · exact Or.inl hmem
    · exact Or.inr hok

/-- Claim C2 — `pollUntil` never invokes the probe at an instant where the
signal has been observed set, nor at an instant past the deadline; and for a
signal already set at the call it returns `false` having invoked the probe
zero times. -/
theorem claim_C2 (probe : Nat → Bool × Nat) (intervalMs : Nat) (sig : Sig)
    (maxMs : Option Nat) (fuel start : Nat) :
    (∀ r, pollUntil probe intervalMs sig maxMs fuel start = some r →
      ∀ τ ∈ r.times, sig.aborted τ = false ∧
        ∀ M, maxMs = some M → τ - start < M) ∧
    (sig.aborted start = true → 1 ≤ fuel →
      pollUntil probe intervalMs sig maxMs fuel start =
        some ⟨false, [], start⟩) := by
  constructor
  · intro r h τ hτ
    rcases pollGo_times_ok probe intervalMs sig start maxMs fuel start 0 [] r
        h τ hτ with hmem | ⟨ha, hd⟩
    · simp at hmem
    · refine ⟨ha, ?_⟩
      intro M hM
      rw [hM] at hd
      unfold deadlineHit at hd
      simp only [decide_eq_false_iff_not] at hd
      omega
  · intro h hfuel
    rcases fuel with _ | n
    · omega
    unfold pollUntil pollGo
    rw [if_pos h]

/-- Witness for C2 at a signal aborted before entry. -/
theorem claim_C2_witness :
    pollUntil (fun _ => (false, 0)) 1 ⟨some 0⟩ none 1 0 =
      some ⟨false, [], 0⟩ :=
  (claim_C2 (fun _ => (false, 0)) 1 ⟨some 0⟩ none 1 0).2 (by decide) (by decide)

/-- With a probe that never returns `true`, a settled `pollGo` returns
`false`. -/
theorem pollGo_false_of_probe_false (probe : Nat → Bool × Nat)
    (intervalMs : Nat) (sig : Sig) (start : Nat) (maxMs : Option Nat)
    (hp : ∀ j, (probe j).1 = false) :
    ∀ fuel t k acc r,
      pollGo probe intervalMs sig start maxMs fuel t k acc = some r →
      r.result = false := by
  intro fuel
  induction fuel with
  | zero =>
    intro t k acc r h
    simp [pollGo] at h
  | succ n ih =>
    intro t k acc r h
    unfold pollGo at h
    by_cases h1 : sig.aborted t = true
    · rw [if_pos h1] at h
      injection h with h
      subst h
      rfl
    rw [if_neg h1] at h
    by_cases h2 : deadlineHit maxMs start t = true
    · rw [if_pos h2] at h
      injection h with h
      subst h
      rfl
    rw [if_neg h2] at h
    rw [if_neg (by simp [hp k])] at h
    by_cases h4 : (interruptibleSleep intervalMs sig (t + (probe k).2)).res =
        SleepRes.aborted
    · rw [if_pos h4] at h
      injection h with h
      subst h
      rfl
    rw [if_neg h4] at h
    exact ih _ _ _ _ h

/-- A settled `pollGo` run that returned `false` at an instant where the
signal reads unaborted gave up because the deadline had elapsed. -/
theorem pollGo_deadline_of_false_unaborted (probe : Nat → Bool × Nat)
    (intervalMs : Nat) (sig : Sig) (start : Nat) (maxMs : Option Nat) :
    ∀ fuel t k acc r,
      pollGo probe intervalMs sig start maxMs fuel t k acc = some r →
      r.result = false → sig.aborted r.endTime = false →
      deadlineHit maxMs start r.endTime = true := by
  intro fuel
  induction fuel with
  | zero =>
    intro t k acc r h
    simp [pollGo] at h
  | succ n ih =>
    intro t k acc r h hres hab
    unfold pollGo at h
    by_cases h1 : sig.aborted t = true
    · rw [if_pos h1] at h
      injection h with h
      subst h
      rw [h1] at hab
      exact absurd hab (by decide)
    rw [if_neg h1] at h
    by_cases h2 : deadlineHit maxMs start t = true
    · rw [if_pos h2] at h
      injection h with h
      subst h
      exact h2
    rw [if_neg h2] at h
    by_cases h3 : (probe k).1 = true
    · rw [if_pos h3] at h
      injection h with h
      subst h
      simp at hres
    rw [if_neg h3] at h
    by_cases h4 : (interruptibleSleep intervalMs sig (t + (probe k).2)).res =
        SleepRes.aborted
    · rw [if_pos h4] at h
      injection h with h
      subst h
      rw [interruptibleSleep_aborted_end intervalMs sig _ h4] at hab
      exact absurd hab (by decide)
    rw [if_neg h4] at h
    exact ih _ _ _ _ h hres hab

/-- The probe-invocation list of a settled `pollGo` run extends the incoming
accumulator. -/
theorem pollGo_times_suffix (probe : Nat → Bool × Nat) (intervalMs : Nat)
    (sig : Sig) (start : Nat) (maxMs : Option Nat) :
    ∀ fuel t k acc r,
      pollGo probe intervalMs sig start maxMs fuel t k acc = some r →
      ∃ l, r.times = l ++ acc := by
  intro fuel
  induction fuel with
  | zero =>
    intro t k acc r h
    simp [pollGo] at h
  | succ n ih =>
    intro t k acc r h
    unfold pollGo at h
    by_cases h1 : sig.aborted t = true
    · rw [if_pos h1] at h
      injection h with h
      subst h
      exact ⟨[], rfl⟩
    rw [if_neg h1] at h
    by_cases h2 : deadlineHit maxMs start t = true
    · rw [if_pos h2] at h
      injection h with h
      subst h
      exact ⟨[], rfl⟩
    rw [if_neg h2] at h
    by_cases h3 : (probe k).1 = true
    · rw [if_pos h3] at h
      injection h with h
      subst h
      exact ⟨[t], rfl⟩
    rw [if_neg h3] at h
    by_cases h4 : (interruptibleSleep intervalMs sig (t + (probe k).2)).res =
        SleepRes.aborted
    · rw [if_pos h4] at h
      injection h with h
      subst h
      exact ⟨[t], rfl⟩
    rw [if_neg h4] at h
    rcases ih _ _ _ _ h with ⟨l, hl⟩
    exact ⟨l ++ [t], by rw [hl, List.append_assoc, List.singleton_append]⟩

/-- With a positive interval and a `maxMs` deadline, `pollGo` settles within
`M + 1` loop iterations: each iteration past the entry advances the clock by
at least the interval. -/
theorem pollGo_isSome (probe : Nat → Bool × Nat) (intervalMs : Nat)
    (sig : Sig) (start M : Nat) (hpos : 1 ≤ intervalMs) :
    ∀ n t k acc, start ≤ t → start + M ≤ t + n →
      (pollGo probe intervalMs sig start (some M) (n + 1) t k acc).isSome := by
  intro n
  induction n with
  | zero =>
    intro t k acc ht hM
    unfold pollGo
    by_cases hA : sig.aborted t = true
    · rw [if_pos hA]
      rfl
    rw [if_neg hA]
    have hd : deadlineHit (some M) start t = true := by
      unfold deadlineHit
      simp only [decide_eq_true_eq]
      omega
    rw [if_pos hd]
    rfl
  | succ n ih =>
    intro t k acc ht hM
    unfold pollGo
    by_cases hA : sig.aborted t = true
    · rw [if_pos hA]
      rfl
    rw [if_neg hA]
    by_cases hd : deadlineHit (some M) start t = true
    · rw [if_pos hd]
      rfl
    rw [if_neg hd]
    by_cases hp : (probe k).1 = true
    · rw [if_pos hp]
      rfl
    rw [if_neg hp]
    by_cases hs : (interruptibleSleep intervalMs sig (t + (probe k).2)).res =
        SleepRes.aborted
    · rw [if_pos hs]
      rfl
    rw [if_neg hs]
    rw [interruptibleSleep_timeout_end intervalMs sig _ hs]
    exact ih (t + (probe k).2 + intervalMs) (k + 1) (t :: acc) (by omega)
      (by omega)

/-- Claim C3 counterexample — with the signal already set at the call,
`pollUntil` on an always-false probe with `maxMs = 5` returns `false` with an
empty probe-invocation list, so "the probe is invoked at least once before it
returns" fails for a signal that was set — the claim asserted it "regardless
of whether the signal was ever set". -/
theorem claim_C3_cex :
    pollUntil (fun _ => (false, 1)) 1 ⟨some 0⟩ (some 5) 6 0 =
      some ⟨false, [], 0⟩ := by
  decide

/-- Claim C3 (amended) — for every positive interval, signal and `maxMs = M`,
`pollUntil` applied to a probe that always returns false settles (within
`M + 1` iterations) and returns `false` regardless of signal state; and
provided the signal is unset at loop entry and `M > 0`, the probe is invoked
at least once before it returns. -/
theorem claim_C3 (intervalMs : Nat) (sig : Sig) (start M : Nat)
    (dur : Nat → Nat) (hpos : 1 ≤ intervalMs) :
    ∃ r, pollUntil (fun k => (false, dur k)) intervalMs sig (some M) (M + 1)
        start = some r ∧ r.result = false ∧
      (sig.aborted start = false → 0 < M → r.times ≠ []) := by
  have hsome := pollGo_isSome (fun k => (false, dur k)) intervalMs sig start M
    hpos M start 0 [] (le_refl start) (by omega)
  rcases Option.isSome_iff_exists.mp hsome with ⟨r, hr⟩
  refine ⟨r, hr, pollGo_false_of_probe_false (fun k => (false, dur k))
    intervalMs sig start (some M) (fun _ => rfl) _ _ _ _ _ hr, ?_⟩
  intro hA hM
  unfold pollGo at hr
  rw [if_neg (by rw [hA]; exact (by decide))] at hr
  have hd : ¬ deadlineHit (some M) start start = true := by
    unfold deadlineHit
    simp only [decide_eq_true_eq]
    omega
  rw [if_neg hd] at hr
  rw [if_neg (by simp)] at hr
  by_cases hs : (interruptibleSleep intervalMs sig
      (start + ((fun k => (false, dur k)) 0).2)).res = SleepRes.aborted
  · rw [if_pos hs] at hr
    injection hr with hr
    subst hr
    simp
  · rw [if_neg hs] at hr
    rcases pollGo_times_suffix (fun k => (false, dur k)) intervalMs sig start
      (some M) _ _ _ _ _ hr with ⟨l, hl⟩
    rw [hl]
    simp

/-- Witness for C3 at interval 1, never-set signal, `M = 1`. -/
theorem claim_C3_witness :
    ∃ r, pollUntil (fun k => (false, (fun _ => 0) k)) 1 ⟨none⟩ (some 1) 2 0 =
        some r ∧ r.result = false ∧ r.times ≠ [] := by
  rcases claim_C3 1 ⟨none⟩ 0 1 (fun _ => 0) (by decide) with ⟨r, h1, h2, h3⟩
  exact ⟨r, h1, h2, h3 (by decide) (by decide)⟩

/-- Claim C4 — when the wait-for-pods poll loop gives up (`false`) with the
cancellation signal unobserved at that instant, the timeout had genuinely
elapsed and `waitForPods` raises the descriptive error naming the pod label
and the timeout duration; when the loop gives up with the signal observed
set, `waitForPods` returns normally with no error. -/
theorem claim_C4 (outputs : Nat → List Char) (probeDur : Nat → Nat)
    (sig : Sig) (label : List Char) (timeoutMs : Nat) (fuel start : Nat)
    (r : PollRes)
    (hpoll : pollUntil (fun k => (waitProbe (outputs k), probeDur k))
      POLL_INTERVAL sig (some timeoutMs) fuel start = some r)
    (hfalse : r.result = false) :
    (sig.aborted r.endTime = false →
      waitForPods outputs probeDur sig label timeoutMs fuel start =
        some (.error (timeoutMsg label timeoutMs)) ∧
      timeoutMs ≤ r.endTime - start ∧
      (∃ u v, u ++ label ++ v = timeoutMsg label timeoutMs)) ∧
    (sig.aborted r.endTime = true →
      waitForPods outputs probeDur sig label timeoutMs fuel start =
        some (.ok ())) := by
  constructor
  · intro hab
    refine ⟨?_, ?_, ?_⟩
    · unfold waitForPods
      rw [hpoll]
      simp [hfalse, hab]
    · have hd := pollGo_deadline_of_false_unaborted
        (fun k => (waitProbe (outputs k), probeDur k)) POLL_INTERVAL sig start
        (some timeoutMs) fuel start 0 [] r hpoll hfalse hab
      unfold deadlineHit at hd
      simp only [decide_eq_true_eq] at hd
      exact hd
    · exact ⟨"Timed out after ".toList ++
        (Nat.repr (roundMinutes timeoutMs)).toList ++
        "m waiting for pods matching '".toList,
        "'. Check cluster capacity, image pull status, and node selectors.".toList,
        rfl⟩
  · intro hab
    unfold waitForPods
    rw [hpoll]
    simp [hfalse, hab]

/-- Witness for C4 on a run that times out with no pods ever appearing and a
never-set signal. -/
theorem claim_C4_witness :
    waitForPods (fun _ => []) (fun _ => 0) ⟨none⟩
        "job-name=stress-runner".toList 5000 2 0 =
      some (.error (timeoutMsg "job-name=stress-runner".toList 5000)) ∧
    5000 ≤ 5000 - 0 := by
  have h := claim_C4 (fun _ => []) (fun _ => 0) ⟨none⟩
    "job-name=stress-runner".toList 5000 2 0 ⟨false, [0], 5000⟩ (by decide) rfl
  rcases h.1 (by decide) with ⟨h1, h2, _⟩
  exact ⟨h1, h2⟩

/-- Claim C7 — a failing prior-deployment-removal step (non-zero
`helm uninstall` exit, e.g. release absent) is logged and swallowed —
`helmUninstall` never raises — so in the run pipeline the install step still
runs whatever the uninstall exit code was; whereas a step that does throw
yields `Failed` with its message and skips all remaining steps. -/
theorem claim_C7 (authRes kubeRes installRes monitorRes :
      Except (List Char) Unit)
    (uninstallCode : Nat) (release : List Char) (dryRun : Bool)
    (hauth : authRes = .ok ()) (hkube : kubeRes = .ok ()) :
    (helmUninstall uninstallCode release dryRun).raised = none ∧
    (uninstallCode ≠ 0 →
      (helmUninstall uninstallCode release dryRun).log =
        "  No existing release \"".toList ++ release ++
          "\" found. Skipping.".toList) ∧
    "install".toList ∈
      (runSteps (runModeSteps authRes kubeRes uninstallCode release dryRun
        installRes monitorRes)).2 ∧
    (∀ pre name m post, (∀ s ∈ pre, s.2 = Except.ok ()) →
      runSteps (pre ++ (name, Except.error m) :: post) =
        (.failed m, pre.map Prod.fst ++ [name])) := by
  have hstep : stepOfUninstall (helmUninstall uninstallCode release dryRun) =
      Except.ok () := by
    unfold stepOfUninstall helmUninstall
    by_cases h : uninstallCode = 0
    · rw [if_pos h]
    · rw [if_neg h]
  refine ⟨?_, ?_, ?_, ?_⟩
  · unfold helmUninstall
    by_cases h : uninstallCode = 0
    · rw [if_pos h]
    · rw [if_neg h]
  · intro h
    unfold helmUninstall
    rw [if_neg h]
  · subst hauth
    subst hkube
    unfold runModeSteps
    rw [hstep]
    cases installRes with
    | error msg => simp [runSteps]
    | ok u =>
      cases u
      cases monitorRes with
      | error msg2 => simp [runSteps]
      | ok u2 =>
        cases u2
        simp [runSteps]
  · intro pre name m post hpre
    induction pre with
    | nil => simp [runSteps]
    | cons s rest ih =>
      rcases s with ⟨n0, o0⟩
      have ho : o0 = Except.ok () := hpre (n0, o0) (List.mem_cons_self _ _)
      subst ho
      have ih' := ih (fun s hs => hpre s (List.mem_cons_of_mem _ hs))
      rw [List.cons_append]
      unfold runSteps
      rw [ih']
      simp

/-- Witness for C7: uninstall exits 1 (release absent), install still runs. -/
theorem claim_C7_witness :
    "install".toList ∈
      (runSteps (runModeSteps (.ok ()) (.ok ()) 1 "my-load-test".toList false
        (.ok ()) (.ok ()))).2 :=
  (claim_C7 (.ok ()) (.ok ()) (.ok ()) (.ok ()) 1 "my-load-test".toList false
    rfl rfl).2.2.1

/-- Claim C1 — whenever the monitoring phase exits (normal completion, thrown
step failure, or interruption), the background pod-watch is aborted and
joined first; the compensating `helm uninstall` appears after that join, and
appears (with no cancellation-signal binding) exactly when the interrupted
flag is set; the phase settles with the body's own outcome. -/
theorem claim_C1 (bodyTrace : List MonEv) (bodyRes : Except (List Char) Unit)
    (interrupted : Bool)
    (hbody : ∀ e ∈ bodyTrace, e.isTeardown = false) :
    ∃ pre post,
      (monitorGatling bodyTrace bodyRes interrupted).trace =
        pre ++ MonEv.abortWatch :: MonEv.joinWatch :: post ∧
      (∀ e ∈ pre, e.isTeardown = false) ∧
      post = (if interrupted then [MonEv.uninstallCmd none] else []) ∧
      (monitorGatling bodyTrace bodyRes interrupted).result = bodyRes := by
  refine ⟨MonEv.startWatch :: bodyTrace,
    (if interrupted then [MonEv.uninstallCmd none] else []), ?_, ?_, rfl, rfl⟩
  · unfold monitorGatling
    simp [List.append_assoc]
  · intro e he
    rcases List.mem_cons.mp he with rfl | he
    · rfl
    · exact hbody e he

/-- Witness for C1: an interrupted run whose body streamed one stage. -/
theorem claim_C1_witness :
    ∃ pre post,
      (monitorGatling [MonEv.stage "runner".toList] (.ok ()) true).trace =
        pre ++ MonEv.abortWatch :: MonEv.joinWatch :: post ∧
      (∀ e ∈ pre, e.isTeardown = false) ∧
      post = [MonEv.uninstallCmd none] ∧
      (monitorGatling [MonEv.stage "runner".toList] (.ok ()) true).result =
        .ok () := by
  rcases claim_C1 [MonEv.stage "runner".toList] (.ok ()) true (by decide)
    with ⟨pre, post, h1, h2, h3, h4⟩
  exact ⟨pre, post, h1, h2, by rw [h3]; simp, h4⟩

/-- Splitting at the first `'='` of `k ++ '=' :: v` recovers `(k, v)` when
`k` itself is `'='`-free — any further `'='` characters stay in the value. -/
theorem splitAtEq_append (k v : List Char) (h : '=' ∉ k) :
    splitAtEq (k ++ '=' :: v) = some (k, v) := by
  induction k with
  | nil => simp [splitAtEq]
  | cons c cs ih =>
    have hc : ¬ c = '=' := fun hc => h (hc ▸ List.mem_cons_self c cs)
    have h2 : '=' ∉ cs := fun hm => h (List.mem_cons_of_mem _ hm)
    rw [List.cons_append]
    unfold splitAtEq
    rw [if_neg hc, ih h2]

/-- A line with no `'='` has no split. -/
theorem splitAtEq_none (line : List Char) (h : '=' ∉ line) :
    splitAtEq line = none := by
  induction line with
  | nil => rfl
  | cons c cs ih =>
    have hc : ¬ c = '=' := fun hc => h (hc ▸ List.mem_cons_self c cs)
    have h2 : '=' ∉ cs := fun hm => h (List.mem_cons_of_mem _ hm)
    unfold splitAtEq
    rw [if_neg hc, ih h2]

/-- Soundness of the split: a produced pair reassembles the line at its
first `'='`. -/
theorem splitAtEq_some : ∀ line k v, splitAtEq line = some (k, v) →
    line = k ++ '=' :: v ∧ '=' ∉ k := by
  intro line
  induction line with
  | nil =>
    intro k v h
    simp [splitAtEq] at h
  | cons c cs ih =>
    intro k v h
    unfold splitAtEq at h
    by_cases hc : c = '='
    · rw [if_pos hc] at h
      simp only [Option.some.injEq, Prod.mk.injEq] at h
      obtain ⟨hk, hv⟩ := h
      subst hk
      subst hv
      subst hc
      exact ⟨rfl, by simp⟩
    · rw [if_neg hc] at h
      cases hsp : splitAtEq cs with
      | none =>
        rw [hsp] at h
        simp at h
      | some p =>
        rcases p with ⟨k2, v2⟩
        rw [hsp] at h
        simp only [Option.some.injEq, Prod.mk.injEq] at h
        obtain ⟨hk, hv⟩ := h
        subst hk
        subst hv
        rcases ih k2 v2 hsp with ⟨hline, hnmem⟩
        refine ⟨by rw [List.cons_append, ← hline], ?_⟩
        intro hm
        rcases List.mem_cons.mp hm with h1 | h1
        · exact hc h1.symm
        · exact hnmem h1

/-- A line with no `'='` contributes nothing. -/
theorem parseAwsLine_none (line : List Char) (h : '=' ∉ line) :
    parseAwsLine line = none := by
  unfold parseAwsLine
  rw [splitAtEq_none line h]

/-- A produced entry comes from a line of the shape `key ++ "=" ++ value`
with an `'='`-free key starting with `"AWS_"`, the value kept intact. -/
theorem parseAwsLine_some (line k v : List Char)
    (h : parseAwsLine line = some (k, v)) :
    line = k ++ '=' :: v ∧ '=' ∉ k ∧ AWS_MARK.isPrefixOf k = true := by
  unfold parseAwsLine at h
  cases hsp : splitAtEq line with
  | none =>
    rw [hsp] at h
    simp at h
  | some p =>
    rcases p with ⟨k2, v2⟩
    rw [hsp] at h
    dsimp only at h
    by_cases hA : AWS_MARK.isPrefixOf k2 = true
    · rw [if_pos hA] at h
      simp only [Option.some.injEq, Prod.mk.injEq] at h
      obtain ⟨hk, hv⟩ := h
      subst hk
      subst hv
      rcases splitAtEq_some line k2 v2 hsp with ⟨h1, h2⟩
      exact ⟨h1, h2, hA⟩
    · rw [if_neg hA] at h
      simp at h

/-- Looking up after a record assignment: the assigned key reads the new
value, every other key is untouched. -/
theorem lookupEnv_upsert (env : List (List Char × List Char))
    (k0 v0 k : List Char) :
    lookupEnv (upsert env k0 v0) k =
      if k0 = k then some v0 else lookupEnv env k := by
  induction env with
  | nil => rfl
  | cons p rest ih =>
    rcases p with ⟨k1, v1⟩
    by_cases h1 : k1 = k0
    · subst h1
      by_cases h2 : k1 = k
      · subst h2
        simp [upsert, lookupEnv]
      · simp [upsert, lookupEnv, h2]
    · by_cases h2 : k1 = k
      · subst h2
        have h0 : ¬ k0 = k1 := fun hc => h1 hc.symm
        simp [upsert, lookupEnv, h1, h0]
      · simp [upsert, lookupEnv, h1, h2, ih]

/-- One unfolding step of `lastVal`. -/
theorem lastVal_cons (k0 v0 : List Char)
    (rest : List (List Char × List Char)) (k : List Char) :
    lastVal ((k0, v0) :: rest) k =
      match lastVal rest k with
      | some v => some v
      | none => if k0 = k then some v0 else none := rfl

/-- The record built by `parseAwsEnv`'s fold maps each key to the value of
the latest qualifying line for that key, falling back to the incoming
record. -/
theorem parseAwsEnv_fold (k : List Char) :
    ∀ (lines : List (List Char)) (env : List (List Char × List Char)),
      lookupEnv (lines.foldl (fun env line =>
          match parseAwsLine line with
          | none => env
          | some (k2, v2) => upsert env k2 v2) env) k =
        match lastVal (lines.filterMap parseAwsLine) k with
        | some v => some v
        | none => lookupEnv env k := by
  intro lines
  induction lines with
  | nil => intro env; rfl
  | cons line rest ih =>
    intro env
    cases hp : parseAwsLine line with
    | none =>
      simp only [List.foldl_cons, List.filterMap_cons, hp]
      exact ih env
    | some p =>
      rcases p with ⟨k0, v0⟩
      simp only [List.foldl_cons, List.filterMap_cons, hp]
      rw [ih (upsert env k0 v0), lastVal_cons]
      cases hl : lastVal (rest.filterMap parseAwsLine) k with
      | some v => rfl
      | none =>
        rw [lookupEnv_upsert]
        by_cases hk : k0 = k
        · rw [if_pos hk, if_pos hk]
        · rw [if_neg hk, if_neg hk]

/-- Membership after a record assignment: an entry is an old entry or the
assignment itself. -/
theorem mem_upsert (env : List (List Char × List Char))
    (k0 v0 : List Char) (p : List Char × List Char)
    (h : p ∈ upsert env k0 v0) : p ∈ env ∨ p = (k0, v0) := by
  induction env with
  | nil =>
    rcases List.mem_cons.mp h with h1 | h1
    · exact Or.inr h1
    · simp at h1
  | cons q rest ih =>
    rcases q with ⟨k1, v1⟩
    unfold upsert at h
    by_cases h1 : k1 = k0
    · rw [if_pos h1] at h
      rcases List.mem_cons.mp h with h2 | h2
      · exact Or.inr h2
      · exact Or.inl (List.mem_cons_of_mem _ h2)
    · rw [if_neg h1] at h
      rcases List.mem_cons.mp h with h2 | h2
      · exact Or.inl (h2 ▸ List.mem_cons_self _ _)
      · rcases ih h2 with h3 | h3
        · exact Or.inl (List.mem_cons_of_mem _ h3)
        · exact Or.inr h3

/-- Every entry of the record built by `parseAwsEnv`'s fold is an incoming
entry or the parse of one of the processed lines. -/
theorem parseAwsEnv_fold_mem :
    ∀ (lines : List (List Char)) (env : List (List Char × List Char)) p,
      p ∈ lines.foldl (fun env line =>
          match parseAwsLine line with
          | none => env
          | some (k2, v2) => upsert env k2 v2) env →
      p ∈ env ∨ ∃ line ∈ lines, parseAwsLine line = some p := by
  intro lines
  induction lines with
  | nil =>
    intro env p h
    exact Or.inl h
  | cons line rest ih =>
    intro env p h
    rw [List.foldl_cons] at h
    cases hp : parseAwsLine line with
    | none =>
      rw [hp] at h
      rcases ih env p h with h1 | ⟨l2, hl2, he⟩
      · exact Or.inl h1
      · exact Or.inr ⟨l2, List.mem_cons_of_mem _ hl2, he⟩
    | some q =>
      rcases q with ⟨k0, v0⟩
      rw [hp] at h
      rcases ih (upsert env k0 v0) p h with h1 | ⟨l2, hl2, he⟩
      · rcases mem_upsert env k0 v0 p h1 with h2 | h2
        · exact Or.inl h2
        · exact Or.inr ⟨line, List.mem_cons_self _ _, h2 ▸ hp⟩
      · exact Or.inr ⟨l2, List.mem_cons_of_mem _ hl2, he⟩

/-- Claim C10 counterexample — with two qualifying lines assigning the same
key, the record keeps only the later line's value: the entry `(AWS_A, 1)`
comes from a line that contains `'='` and whose key begins with `"AWS_"`,
yet it is not in the result, so "the result contains exactly the entries
from lines that contain `'='` and whose key begins with `AWS_`" fails as
stated. -/
theorem claim_C10_cex :
    parseAwsEnv "AWS_A=1\nAWS_A=2".toList =
      [("AWS_A".toList, "2".toList)] ∧
    ("AWS_A".toList, "1".toList) ∉ parseAwsEnv "AWS_A=1\nAWS_A=2".toList ∧
    "AWS_A=1".toList ∈ splitOnNl "AWS_A=1\nAWS_A=2".toList ∧
    parseAwsLine "AWS_A=1".toList = some ("AWS_A".toList, "1".toList) := by
  refine ⟨by decide, by decide, by decide, by decide⟩

/-- Claim C10 (amended) — `parseAwsEnv` splits each line at the first `'='`
only, so a value containing further `'='` characters is kept intact; lines
without `'='` are ignored; every entry comes from a line that contains `'='`
and whose key begins with `"AWS_"`; and the resulting record maps each key
to exactly the latest such line's value — later lines override earlier ones
for the same key. -/
theorem claim_C10 (raw : List Char) :
    (∀ k v, '=' ∉ k → AWS_MARK.isPrefixOf k = true →
      parseAwsLine (k ++ '=' :: v) = some (k, v)) ∧
    (∀ line, line ∈ splitOnNl raw → '=' ∉ line → parseAwsLine line = none) ∧
    (∀ k v, (k, v) ∈ parseAwsEnv raw →
      ∃ line ∈ splitOnNl raw, parseAwsLine line = some (k, v) ∧
        line = k ++ '=' :: v ∧ '=' ∉ k ∧ AWS_MARK.isPrefixOf k = true) ∧
    (∀ k, lookupEnv (parseAwsEnv raw) k =
      lastVal ((splitOnNl raw).filterMap parseAwsLine) k) := by
  refine ⟨?_, ?_, ?_, ?_⟩
  · intro k v hk hA
    unfold parseAwsLine
    rw [splitAtEq_append k v hk]
    dsimp only
    rw [if_pos hA]
  · intro line _ h
    exact parseAwsLine_none line h
  · intro k v hmem
    rcases parseAwsEnv_fold_mem (splitOnNl raw) [] (k, v) hmem
      with h1 | ⟨line, hline, he⟩
    · simp at h1
    · rcases parseAwsLine_some line k v he with ⟨h2, h3, h4⟩
      exact ⟨line, hline, he, h2, h3, h4⟩
  · intro k
    have h := parseAwsEnv_fold k (splitOnNl raw) []
    unfold parseAwsEnv
    rw [h]
    cases lastVal ((splitOnNl raw).filterMap parseAwsLine) k with
    | none => rfl
    | some v => rfl

/-- Witness for C10 on a raw text with a session token containing `'='`,
a non-AWS line and a line without `'='`. -/
theorem claim_C10_witness :
    parseAwsLine ("AWS_SESSION_TOKEN".toList ++ '=' :: "abc=def=".toList) =
      some ("AWS_SESSION_TOKEN".toList, "abc=def=".toList) ∧
    lookupEnv (parseAwsEnv "FOO=1\nAWS_SESSION_TOKEN=abc=def=\nnoeq".toList)
        "AWS_SESSION_TOKEN".toList =
      lastVal ((splitOnNl "FOO=1\nAWS_SESSION_TOKEN=abc=def=\nnoeq".toList).filterMap
        parseAwsLine) "AWS_SESSION_TOKEN".toList :=
  ⟨(claim_C10 []).1 "AWS_SESSION_TOKEN".toList "abc=def=".toList (by decide)
      (by decide),
    (claim_C10 "FOO=1\nAWS_SESSION_TOKEN=abc=def=\nnoeq".toList).2.2.2
      "AWS_SESSION_TOKEN".toList⟩

end Stress
